import Mathlib

/-!
Verification of the process-expression core of `generated_processes.py`:
the grammar/parser (`PROCESS_GRAMMAR`, lark LALR), the structural metrics
(`max_nested_xor`, `max_independent_xor`), the impact-vector generator
(`generate_vectors`) and the CPI builder (`translate_to_cpi` / `process_node`).

Numeric values drawn from the random sources are modelled as rationals; the
random sources themselves are modelled as explicit tapes (one value per call),
threaded through the computation by an explicit call counter, matching the
single shared `random` module state and the separate `numpy` state.
-/

namespace SynthCpi

/-! ### Tokens and the lexer

`PROCESS_GRAMMAR` uses lark's `common.CNAME` for `NAME` (an ASCII letter or
underscore followed by letters, digits or underscores), the anonymous operator
tokens `^`, `||`, `,`, `(`, `)`, and ignores inline whitespace (spaces/tabs).
Any other character fails lexing (lark's `UnexpectedCharacters`). -/

inductive Tok where
  | name (s : String)
  | caret
  | pbar
  | comma
  | lparen
  | rparen
deriving DecidableEq

def isNameStart (c : Char) : Bool := c.isAlpha || c = '_'

def isNameChar (c : Char) : Bool := c.isAlpha || c.isDigit || c = '_'

def tokenizeFuel : Nat → List Char → Except String (List Tok)
  | _, [] => .ok []
  | 0, _ :: _ => .error "out of fuel"
  | f + 1, c :: cs =>
    if c = ' ' || c = '\t' then tokenizeFuel f cs
    else if c = '^' then (tokenizeFuel f cs).map (fun ts => Tok.caret :: ts)
    else if c = ',' then (tokenizeFuel f cs).map (fun ts => Tok.comma :: ts)
    else if c = '(' then (tokenizeFuel f cs).map (fun ts => Tok.lparen :: ts)
    else if c = ')' then (tokenizeFuel f cs).map (fun ts => Tok.rparen :: ts)
    else if c = '|' then
      match cs with
      | '|' :: cs2 => (tokenizeFuel f cs2).map (fun ts => Tok.pbar :: ts)
      | _ => .error "UnexpectedCharacters"
    else if isNameStart c then
      (tokenizeFuel f (cs.dropWhile isNameChar)).map
        (fun ts => Tok.name (String.mk (c :: cs.takeWhile isNameChar)) :: ts)
    else .error "UnexpectedCharacters"

/-- Lex a character list; every step consumes at least one character, so
`length + 1` fuel always suffices. -/
def tokenize (l : List Char) : Except String (List Tok) :=
  tokenizeFuel (l.length + 1) l

/-! ### The parse tree

lark builds `Tree`/`Token` values.  With `PROCESS_GRAMMAR` the shapes that can
occur are: `Tree('task', [Token NAME])` (we fuse the single `NAME` token into
the constructor), `Tree('sequential'|'parallel'|'xor', [left, right])`, and —
because the `region` rule has an empty first alternative — `Tree('region', [])`
for an empty region. -/

inductive PTree where
  | task (name : String)
  | emptyRegion
  | sequential (l r : PTree)
  | parallel (l r : PTree)
  | xor (l r : PTree)
deriving DecidableEq, Repr

/-! ### The parser

`PROCESS_GRAMMAR` (lark, LALR):
`?start: xor`, `?xor: parallel | xor "^" parallel`,
`?parallel: sequential | parallel "||" sequential`,
`?sequential: region | sequential "," region`,
`?region: | NAME -> task | "(" xor ")"`.

Each binary rule is left recursive, so repeated operators associate to the
left; `region` is nullable (its first alternative is empty).  The grammar is
deterministic, so the LALR parse is realised here as fuel-bounded
precedence-climbing descent: each layer parses its tighter sublayer and then
folds a left-associated chain of its own operator; `region` consumes a `NAME`,
a parenthesised `xor`, or nothing (yielding the empty-region tree). -/

mutual

def parseXor : Nat → List Tok → Except String (PTree × List Tok)
  | 0, _ => .error "out of fuel"
  | f + 1, ts =>
    match parseParallel f ts with
    | .error e => .error e
    | .ok (l, ts1) => parseXorTail f l ts1

def parseXorTail : Nat → PTree → List Tok → Except String (PTree × List Tok)
  | 0, _, _ => .error "out of fuel"
  | f + 1, acc, ts =>
    match ts with
    | .caret :: ts1 =>
      match parseParallel f ts1 with
      | .error e => .error e
      | .ok (r, ts2) => parseXorTail f (.xor acc r) ts2
    | _ => .ok (acc, ts)

def parseParallel : Nat → List Tok → Except String (PTree × List Tok)
  | 0, _ => .error "out of fuel"
  | f + 1, ts =>
    match parseSequential f ts with
    | .error e => .error e
    | .ok (l, ts1) => parseParallelTail f l ts1

def parseParallelTail : Nat → PTree → List Tok → Except String (PTree × List Tok)
  | 0, _, _ => .error "out of fuel"
  | f + 1, acc, ts =>
    match ts with
    | .pbar :: ts1 =>
      match parseSequential f ts1 with
      | .error e => .error e
      | .ok (r, ts2) => parseParallelTail f (.parallel acc r) ts2
    | _ => .ok (acc, ts)

def parseSequential : Nat → List Tok → Except String (PTree × List Tok)
  | 0, _ => .error "out of fuel"
  | f + 1, ts =>
    match parseRegion f ts with
    | .error e => .error e
    | .ok (l, ts1) => parseSequentialTail f l ts1

def parseSequentialTail : Nat → PTree → List Tok → Except String (PTree × List Tok)
  | 0, _, _ => .error "out of fuel"
  | f + 1, acc, ts =>
    match ts with
    | .comma :: ts1 =>
      match parseRegion f ts1 with
      | .error e => .error e
      | .ok (r, ts2) => parseSequentialTail f (.sequential acc r) ts2
    | _ => .ok (acc, ts)

def parseRegion : Nat → List Tok → Except String (PTree × List Tok)
  | 0, _ => .error "out of fuel"
  | f + 1, ts =>
    match ts with
    | .name s :: ts1 => .ok (.task s, ts1)
    | .lparen :: ts1 =>
      match parseXor f ts1 with
      | .error e => .error e
      | .ok (x, ts2) =>
        match ts2 with
        | .rparen :: ts3 => .ok (x, ts3)
        | _ => .error "UnexpectedToken"
    | _ => .ok (.emptyRegion, ts)

end

/-- Runs `PARSER.parse(text)`: lex, parse a full `xor`, and reject leftover input
(lark raises `UnexpectedToken` at a token the table has no action for). -/
def parse (text : String) : Except String PTree :=
  match tokenize text.data with
  | .error e => .error e
  | .ok ts =>
    match parseXor (8 * ts.length + 8) ts with
    | .error e => .error e
    | .ok (t, []) => .ok t
    | .ok (_, _ :: _) => .error "UnexpectedToken"

/-! ### Structural metrics -/

/-- Inner recursion of `max_nested_xor`: tokens/`task` trees give 0, `xor`
gives `max(children) + 1`, `sequential`/`parallel` give `max(children)`, and
any other tree (the empty region) falls through to `return 0`. -/
def max_nested_xor_node : PTree → Nat
  | .task _ => 0
  | .xor l r => max (max_nested_xor_node l) (max_nested_xor_node r) + 1
  | .sequential l r => max (max_nested_xor_node l) (max_nested_xor_node r)
  | .parallel l r => max (max_nested_xor_node l) (max_nested_xor_node r)
  | .emptyRegion => 0

/-- Entry point `max_nested_xor(expression)`: parses the expression and runs the inner
recursion on the resulting tree. -/
def max_nested_xor (expression : String) : Except String Nat :=
  (parse expression).map max_nested_xor_node

/-- Inner recursion of `max_independent_xor`: tokens/`task` trees give 0,
`xor` gives `max(1, max(children))`, `sequential`/`parallel` sum their
children, and any other tree (the empty region) falls through to `return 0`. -/
def max_independent_xor_node : PTree → Nat
  | .task _ => 0
  | .xor l r => max 1 (max (max_independent_xor_node l) (max_independent_xor_node r))
  | .sequential l r => max_independent_xor_node l + max_independent_xor_node r
  | .parallel l r => max_independent_xor_node l + max_independent_xor_node r
  | .emptyRegion => 0

/-- Entry point `max_independent_xor(expression)`: parses the expression and runs the inner
recursion on the resulting tree. -/
def max_independent_xor (expression : String) : Except String Nat :=
  (parse expression).map max_independent_xor_node

/-! ### Random sources

`generated_processes.py` draws from two independent generators: Python's
`random` module (`random.random`, `random.randint`, `random.choice`) and
numpy's (`np.random.random`).  Each is modelled as a tape of per-call results
indexed by a call counter; `pyInt` supplies the raw entropy for the python
calls that return integers. -/

structure RandTapes where
  pyFloat : Nat → ℚ
  pyInt : Nat → Int
  npFloat : Nat → ℚ

/-- The mutable state threaded through one `translate_to_cpi` call: the two
nonlocal counters `id_counter` and `task_counter`, plus the call counters of
the two random sources. -/
structure GState where
  id_counter : Nat
  task_counter : Nat
  pyIdx : Nat
  npIdx : Nat
deriving DecidableEq, Repr

def initState : GState := ⟨0, 0, 0, 0⟩

/-- Models `random.random()`: one uniform draw in `[0,1)`.  Theorems that need the
range add `0 ≤ pyFloat k < 1` as a hypothesis. -/
def random_random (rs : RandTapes) (s : GState) : ℚ × GState :=
  (rs.pyFloat s.pyIdx, { s with pyIdx := s.pyIdx + 1 })

/-- Models `random.randint(lo, hi)`: raises `ValueError` when `hi < lo`, otherwise
returns a uniform integer in `[lo, hi]`, modelled as the tape's raw entropy
reduced into the range. -/
def random_randint (rs : RandTapes) (lo hi : Int) (s : GState) :
    Except String (Int × GState) :=
  if hi < lo then .error "ValueError: empty range for randrange"
  else .ok (lo + (rs.pyInt s.pyIdx).emod (hi - lo + 1), { s with pyIdx := s.pyIdx + 1 })

/-- Models `random.choice(l)`: raises on an empty sequence, otherwise returns a
uniformly chosen element, modelled as the tape's raw entropy reduced to a
position. -/
def random_choice (rs : RandTapes) (l : List Nat) (s : GState) :
    Except String (Nat × GState) :=
  if l.length = 0 then .error "IndexError: cannot choose from an empty sequence"
  else .ok (l.getD ((rs.pyInt s.pyIdx).toNat % l.length) 0, { s with pyIdx := s.pyIdx + 1 })

/-- Models `np.random.random(dim)`: raises `ValueError` for a negative dimension,
otherwise returns `dim` fresh uniform draws. -/
def np_random_random (rs : RandTapes) (dim : Int) (s : GState) :
    Except String (List ℚ × GState) :=
  if dim < 0 then .error "ValueError: negative dimensions are not allowed"
  else .ok ((List.range dim.toNat).map (fun i => rs.npFloat (s.npIdx + i)),
            { s with npIdx := s.npIdx + dim.toNat })

/-! ### `generate_vectors` -/

/-- Performs `vector[i] = f(vector[i])` on a python list/array (index always in range
at the call sites). -/
def listUpdate (v : List ℚ) (i : Nat) (f : ℚ → ℚ) : List ℚ := v.set i (f (v.getD i 0))

/-- Computes `np.nonzero(v)[0]`: the ascending list of positions holding a non-zero
value. -/
def np_nonzero (v : List ℚ) : List Nat :=
  (List.range v.length).filter (fun i => decide (v.getD i 0 ≠ 0))

/-- Draws `indexes = [random.randint(0, dim-1) for _ in range(dim)]` (the loop count
is passed separately as `n = dim.toNat`, so nothing is drawn when `dim = 0`). -/
def draw_indexes (rs : RandTapes) (dim : Int) :
    Nat → GState → Except String (List Nat × GState)
  | 0, s => .ok ([], s)
  | n + 1, s =>
    match random_randint rs 0 (dim - 1) s with
    | .error e => .error e
    | .ok (i, s1) =>
      match draw_indexes rs dim n s1 with
      | .error e => .error e
      | .ok (rest, s2) => .ok (i.toNat :: rest, s2)

/-- Draws `divide_indexes = [random.choice(non_zero_indexes) for _ in range(dim)]`. -/
def draw_choices (rs : RandTapes) (nz : List Nat) :
    Nat → GState → Except String (List Nat × GState)
  | 0, s => .ok ([], s)
  | n + 1, s =>
    match random_choice rs nz s with
    | .error e => .error e
    | .ok (i, s1) =>
      match draw_choices rs nz n s1 with
      | .error e => .error e
      | .ok (rest, s2) => .ok (i :: rest, s2)

/-- The `if mode != "random"` body of the `generate_vectors` loop: draw the
`indexes` picks, then apply the perturbation selected by `mode` (an unknown
mode leaves the vector unchanged, as in the source's `if`/`elif` chain). -/
def applyMode (rs : RandTapes) (mode : String) (dim : Int) (vector : List ℚ)
    (s : GState) : Except String (List ℚ × GState) :=
  match draw_indexes rs dim dim.toNat s with
  | .error e => .error e
  | .ok (indexes, s1) =>
    if mode = "bagging_divide" then
      .ok (indexes.foldl (fun v i => listUpdate v i (fun x => x / 10)) vector, s1)
    else if mode = "bagging_remove" then
      .ok (indexes.foldl (fun nv i => nv.set i (vector.getD i 0))
            (List.replicate dim.toNat 0), s1)
    else if mode = "bagging_remove_divide" then
      .ok (indexes.foldl (fun nv i => nv.set i (vector.getD i 0 / 10))
            (List.replicate dim.toNat 0), s1)
    else if mode = "bagging_remove_reverse" then
      .ok (indexes.foldl (fun nv i => nv.set i 0) vector, s1)
    else if mode = "bagging_remove_reverse_divide" then
      let nv := indexes.foldl (fun nv i => nv.set i 0) vector
      let nz := np_nonzero nv
      if 0 < nz.length then
        match draw_choices rs nz dim.toNat s1 with
        | .error e => .error e
        | .ok (divide_indexes, s2) =>
          .ok (divide_indexes.foldl (fun v i => listUpdate v i (fun x => x / 10)) nv, s2)
      else .ok (nv, s1)
    else .ok (vector, s1)

/-- The `for _ in range(num_vec)` loop of `generate_vectors`, run `n` times. -/
def generate_vectors_loop (rs : RandTapes) (dim : Int) (mode : String) :
    Nat → GState → Except String (List (List ℚ) × GState)
  | 0, s => .ok ([], s)
  | n + 1, s =>
    match np_random_random rs dim s with
    | .error e => .error e
    | .ok (vector, s1) =>
      match (if mode = "random" then Except.ok (vector, s1)
             else applyMode rs mode dim vector s1) with
      | .error e => .error e
      | .ok (vector2, s2) =>
        match generate_vectors_loop rs dim mode n s2 with
        | .error e => .error e
        | .ok (rest, s3) => .ok (vector2 :: rest, s3)

/-- Models `generate_vectors(num_vec, dim, mode)`: `range(num_vec)` is empty for a
non-positive count, so the loop runs `num_vec.toNat` times.  Note the source
performs no explicit parameter validation. -/
def generate_vectors (rs : RandTapes) (num_vec dim : Int) (mode : String)
    (s : GState) : Except String (List (List ℚ) × GState) :=
  generate_vectors_loop rs dim mode num_vec.toNat s

/-! ### The CPI builder -/

/-- The process-instance dictionaries produced by `process_node`.  `null`
models the Python `None` returned for an empty region; `choice` and `nature`
dictionaries share a constructor whose `kind` field holds the `"type"` value
and whose `probability` field holds the optional `"probability"` entry (only
`nature` dictionaries get one).  `task`, `sequence` and `parallel`
dictionaries have no probability entry at all. -/
inductive CPI where
  | null
  | task (id : Nat) (duration : Int) (impacts : List (String × ℚ))
  | sequence (id : Nat) (head tail : CPI)
  | parallel (id : Nat) (first_split second_split : CPI)
  | xorNode (kind : String) (id : Nat) (true_branch false_branch : CPI)
      (probability : Option ℚ)
deriving DecidableEq, Repr

/-- Source `count_tasks`: tokens and `task` trees count 1, any other tree sums over
its children (an empty region therefore counts 0). -/
def count_tasks : PTree → Nat
  | .task _ => 1
  | .emptyRegion => 0
  | .sequential l r => count_tasks l + count_tasks r
  | .parallel l r => count_tasks l + count_tasks r
  | .xor l r => count_tasks l + count_tasks r

/-- Builds `impacts` as in the source dict comprehension,
kept as the ordered association list the dict comprehension produces. -/
def mkImpacts (v : List ℚ) : List (String × ℚ) :=
  (List.range v.length).map (fun i => ("impact_" ++ toString (i + 1), v.getD i 0))

/-- Models `process_node`, the recursive CPI construction.  A task tree holds one
`NAME` token, so the source's `Tree('task')` branch followed by its `Token`
branch collapses into the `task` case here; the `xor` branch draws its
Bernoulli trial before allocating the id, builds both children, and only then
draws the `nature` probability (matching the order of side effects in the
source). -/
def process_node (rs : RandTapes) (cd : ℚ) (di : Int × Int)
    (vecs : List (List ℚ)) : PTree → GState → Except String (CPI × GState)
  | .task _, s =>
    let current_id := s.id_counter
    let s1 : GState := { s with id_counter := current_id + 1 }
    let impact_vector := vecs.getD s1.task_counter []
    let s2 : GState := { s1 with task_counter := s1.task_counter + 1 }
    match random_randint rs di.1 di.2 s2 with
    | .error e => .error e
    | .ok (dur, s3) => .ok (.task current_id dur (mkImpacts impact_vector), s3)
  | .sequential l r, s =>
    let current_id := s.id_counter
    let s1 : GState := { s with id_counter := current_id + 1 }
    match process_node rs cd di vecs l s1 with
    | .error e => .error e
    | .ok (h, s2) =>
      match process_node rs cd di vecs r s2 with
      | .error e => .error e
      | .ok (t, s3) => .ok (.sequence current_id h t, s3)
  | .parallel l r, s =>
    let current_id := s.id_counter
    let s1 : GState := { s with id_counter := current_id + 1 }
    match process_node rs cd di vecs l s1 with
    | .error e => .error e
    | .ok (a, s2) =>
      match process_node rs cd di vecs r s2 with
      | .error e => .error e
      | .ok (b, s3) => .ok (.parallel current_id a b, s3)
  | .xor l r, s =>
    let dr := random_random rs s
    let node_type := if dr.1 < cd then "choice" else "nature"
    let current_id := dr.2.id_counter
    let s1 : GState := { dr.2 with id_counter := current_id + 1 }
    match process_node rs cd di vecs l s1 with
    | .error e => .error e
    | .ok (tb, s2) =>
      match process_node rs cd di vecs r s2 with
      | .error e => .error e
      | .ok (fb, s3) =>
        if dr.1 < cd then .ok (.xorNode node_type current_id tb fb none, s3)
        else
          let pr := random_random rs s3
          .ok (.xorNode node_type current_id tb fb (some pr.1), pr.2)
  | .emptyRegion, s => .ok (.null, s)

/-- The body of `translate_to_cpi` after parsing: count the tasks, request one
vector batch of exactly that size, then run the annotating traversal. -/
def translate_to_cpi_tree (rs : RandTapes) (tree : PTree)
    (choice_distribution : ℚ) (duration_interval : Int × Int)
    (num_impacts : Int) (mode : String) : Except String (CPI × GState) :=
  match generate_vectors rs (count_tasks tree : Int) num_impacts mode initState with
  | .error e => .error e
  | .ok (impact_vectors, s1) =>
    process_node rs choice_distribution duration_interval impact_vectors tree s1

/-- Models `translate_to_cpi(process_str, choice_distribution, duration_interval,
num_impacts, vector_generation_mode)`. -/
def translate_to_cpi (rs : RandTapes) (process_str : String)
    (choice_distribution : ℚ) (duration_interval : Int × Int)
    (num_impacts : Int) (mode : String) : Except String (CPI × GState) :=
  match parse process_str with
  | .error e => .error e
  | .ok tree =>
    translate_to_cpi_tree rs tree choice_distribution duration_interval num_impacts mode

/-! ### Observers of the built process instance -/

/-- The ids of a process instance, listed in pre-order. -/
def ids : CPI → List Nat
  | .null => []
  | .task i _ _ => [i]
  | .sequence i h t => i :: (ids h ++ ids t)
  | .parallel i a b => i :: (ids a ++ ids b)
  | .xorNode _ i t f _ => i :: (ids t ++ ids f)

/-- The impact mappings of the task nodes, listed in pre-order. -/
def impactsList : CPI → List (List (String × ℚ))
  | .null => []
  | .task _ _ imp => [imp]
  | .sequence _ h t => impactsList h ++ impactsList t
  | .parallel _ a b => impactsList a ++ impactsList b
  | .xorNode _ _ t f _ => impactsList t ++ impactsList f

/-- The number of task nodes of a process instance. -/
def countTaskNodes : CPI → Nat
  | .null => 0
  | .task _ _ _ => 1
  | .sequence _ h t => countTaskNodes h + countTaskNodes t
  | .parallel _ a b => countTaskNodes a + countTaskNodes b
  | .xorNode _ _ t f _ => countTaskNodes t + countTaskNodes f

/-- The number of branch nodes carrying the given `"type"` string. -/
def countXorKind (k : String) : CPI → Nat
  | .null => 0
  | .task _ _ _ => 0
  | .sequence _ h t => countXorKind k h + countXorKind k t
  | .parallel _ a b => countXorKind k a + countXorKind k b
  | .xorNode k2 _ t f _ =>
    (if k2 = k then 1 else 0) + countXorKind k t + countXorKind k f

/-- Every node of a process instance, listed in pre-order. -/
def nodesList : CPI → List CPI
  | .null => []
  | .task i d imp => [.task i d imp]
  | .sequence i h t => .sequence i h t :: (nodesList h ++ nodesList t)
  | .parallel i a b => .parallel i a b :: (nodesList a ++ nodesList b)
  | .xorNode k i t f p => .xorNode k i t f p :: (nodesList t ++ nodesList f)

/-- The `"type"` value of a node's dictionary. -/
def kindOf : CPI → String
  | .null => "none"
  | .task _ _ _ => "task"
  | .sequence _ _ _ => "sequence"
  | .parallel _ _ _ => "parallel"
  | .xorNode k _ _ _ _ => k

/-- Whether a node's dictionary has a `"probability"` entry. -/
def hasProbabilityField : CPI → Bool
  | .xorNode _ _ _ _ p => p.isSome
  | _ => false

/-- The `"probability"` entry of a node's dictionary, when present. -/
def probOf : CPI → Option ℚ
  | .xorNode _ _ _ _ p => p
  | _ => none

/-- Total number of AST nodes that receive an id during the traversal: every
task leaf and every binary operator node (empty regions receive none). -/
def nodeCount : PTree → Nat
  | .task _ => 1
  | .emptyRegion => 0
  | .sequential l r => 1 + nodeCount l + nodeCount r
  | .parallel l r => 1 + nodeCount l + nodeCount r
  | .xor l r => 1 + nodeCount l + nodeCount r

/-- A well-formed AST in the sense of the data model: a strict binary tree
whose only leaves are tasks (no empty regions). -/
def wf : PTree → Bool
  | .task _ => true
  | .emptyRegion => false
  | .sequential l r => wf l && wf r
  | .parallel l r => wf l && wf r
  | .xor l r => wf l && wf r

/-- Pre-order id discipline: every node's id is strictly below every id in its
subtrees, and every id in the left subtree is strictly below every id in the
right subtree, recursively. -/
def idOrdered : CPI → Prop
  | .null => True
  | .task _ _ _ => True
  | .sequence i h t =>
    (∀ j ∈ ids h ++ ids t, i < j) ∧ (∀ a ∈ ids h, ∀ b ∈ ids t, a < b) ∧
      idOrdered h ∧ idOrdered t
  | .parallel i a b =>
    (∀ j ∈ ids a ++ ids b, i < j) ∧ (∀ x ∈ ids a, ∀ y ∈ ids b, x < y) ∧
      idOrdered a ∧ idOrdered b
  | .xorNode _ i t f _ =>
    (∀ j ∈ ids t ++ ids f, i < j) ∧ (∀ a ∈ ids t, ∀ b ∈ ids f, a < b) ∧
      idOrdered t ∧ idOrdered f

/-- A concrete deterministic random source (every draw returns 0) used to
instantiate the universally quantified statements on concrete runs. -/
def rs0 : RandTapes := ⟨fun _ => 0, fun _ => 0, fun _ => 0⟩

/-- A small concrete AST, `a ^ b`. -/
def tree0 : PTree := .xor (.task "a") (.task "b")

/-! ### Helper lemmas -/

theorem mem_range'_iff {j n a : Nat} : j ∈ List.range' a n ↔ a ≤ j ∧ j < a + n := by
  rw [List.mem_range']
  constructor
  · rintro ⟨i, hi, rfl⟩; omega
  · intro h; exact ⟨j - a, by omega, by omega⟩

/-- One traversal step of `process_node` from any state: it succeeds (for a
valid duration interval), advances `id_counter` by the number of id-receiving
nodes and `task_counter` by the number of tasks, lists ids in pre-order as the
contiguous block starting at the incoming `id_counter`, hands the `i`-th task
in pre-order the vector at batch position `task_counter + i`, and produces a
non-`None` instance whenever the tree has no empty region. -/
theorem process_node_spec (rs : RandTapes) (cd : ℚ) (di : Int × Int)
    (vecs : List (List ℚ)) (hdi : di.1 ≤ di.2) :
    ∀ (t : PTree) (s : GState), ∃ (c : CPI) (s' : GState),
      process_node rs cd di vecs t s = .ok (c, s') ∧
      s'.id_counter = s.id_counter + nodeCount t ∧
      s'.task_counter = s.task_counter + count_tasks t ∧
      ids c = List.range' s.id_counter (nodeCount t) ∧
      impactsList c = (List.range' s.task_counter (count_tasks t)).map
        (fun j => mkImpacts (vecs.getD j [])) ∧
      countTaskNodes c = count_tasks t ∧
      idOrdered c ∧
      (wf t = true → c ≠ CPI.null) := by
  intro t
  induction t with
  | task nm =>
    intro s
    have hlt : ¬ di.2 < di.1 := not_lt.mpr hdi
    refine ⟨CPI.task s.id_counter (di.1 + (rs.pyInt s.pyIdx).emod (di.2 - di.1 + 1))
        (mkImpacts (vecs.getD s.task_counter [])),
      ⟨s.id_counter + 1, s.task_counter + 1, s.pyIdx + 1, s.npIdx⟩,
      ?_, ?_, ?_, ?_, ?_, ?_, ?_, ?_⟩
    · simp [process_node, random_randint, hlt]
    · simp [nodeCount]
    · simp [count_tasks]
    · simp [ids, nodeCount]
    · simp [impactsList, count_tasks]
    · simp [countTaskNodes, count_tasks]
    · simp [idOrdered]
    · intro _; simp
  | emptyRegion =>
    intro s
    refine ⟨CPI.null, s, ?_, ?_, ?_, ?_, ?_, ?_, ?_, ?_⟩
    · simp [process_node]
    · simp [nodeCount]
    · simp [count_tasks]
    · simp [ids, nodeCount]
    · simp [impactsList, count_tasks]
    · simp [countTaskNodes, count_tasks]
    · simp [idOrdered]
    · intro h; simp [wf] at h
  | sequential l r ihl ihr =>
    intro s
    obtain ⟨cl, s2, hl, hl_id, hl_task, hl_ids, hl_imp, hl_cnt, hl_ord, _⟩ :=
      ihl ⟨s.id_counter + 1, s.task_counter, s.pyIdx, s.npIdx⟩
    obtain ⟨cr, s3, hr, hr_id, hr_task, hr_ids, hr_imp, hr_cnt, hr_ord, _⟩ := ihr s2
    simp only at hl_id hl_task hl_ids hl_imp
    have hcl : ids cl = List.range' (s.id_counter + 1) (nodeCount l) := hl_ids
    have hcr : ids cr = List.range' (s.id_counter + 1 + nodeCount l) (nodeCount r) := by
      rw [hr_ids, hl_id]
    have icl : impactsList cl = (List.range' s.task_counter (count_tasks l)).map
        (fun j => mkImpacts (vecs.getD j [])) := hl_imp
    have icr : impactsList cr = (List.range' (s.task_counter + count_tasks l)
        (count_tasks r)).map (fun j => mkImpacts (vecs.getD j [])) := by
      rw [hr_imp, hl_task]
    refine ⟨CPI.sequence s.id_counter cl cr, s3, ?_, ?_, ?_, ?_, ?_, ?_, ?_, ?_⟩
    · simp [process_node, hl, hr]
    · rw [hr_id, hl_id]; simp [nodeCount]; omega
    · rw [hr_task, hl_task]; simp [count_tasks]; omega
    · have hn : nodeCount (PTree.sequential l r) =
          (nodeCount r + nodeCount l) + 1 := by simp [nodeCount]; omega
      simp only [ids, hcl, hcr, hn, List.range'_succ]
      rw [List.range'_append_1]
    · have hn : count_tasks (PTree.sequential l r) =
          count_tasks r + count_tasks l := by simp [count_tasks]; omega
      simp only [impactsList, icl, icr, hn, ← List.map_append, List.range'_append_1]
    · simp [countTaskNodes, count_tasks, hl_cnt, hr_cnt]
    · refine ⟨?_, ?_, hl_ord, hr_ord⟩
      · intro j hj
        rcases List.mem_append.mp hj with h | h
        · rw [hcl] at h; have := mem_range'_iff.mp h; omega
        · rw [hcr] at h; have := mem_range'_iff.mp h; omega
      · intro a ha b hb
        rw [hcl] at ha; rw [hcr] at hb
        have h1 := mem_range'_iff.mp ha; have h2 := mem_range'_iff.mp hb; omega
    · intro _; simp
  | parallel l r ihl ihr =>
    intro s
    obtain ⟨cl, s2, hl, hl_id, hl_task, hl_ids, hl_imp, hl_cnt, hl_ord, _⟩ :=
      ihl ⟨s.id_counter + 1, s.task_counter, s.pyIdx, s.npIdx⟩
    obtain ⟨cr, s3, hr, hr_id, hr_task, hr_ids, hr_imp, hr_cnt, hr_ord, _⟩ := ihr s2
    simp only at hl_id hl_task hl_ids hl_imp
    have hcl : ids cl = List.range' (s.id_counter + 1) (nodeCount l) := hl_ids
    have hcr : ids cr = List.range' (s.id_counter + 1 + nodeCount l) (nodeCount r) := by
      rw [hr_ids, hl_id]
    have icl : impactsList cl = (List.range' s.task_counter (count_tasks l)).map
        (fun j => mkImpacts (vecs.getD j [])) := hl_imp
    have icr : impactsList cr = (List.range' (s.task_counter + count_tasks l)
        (count_tasks r)).map (fun j => mkImpacts (vecs.getD j [])) := by
      rw [hr_imp, hl_task]
    refine ⟨CPI.parallel s.id_counter cl cr, s3, ?_, ?_, ?_, ?_, ?_, ?_, ?_, ?_⟩
    · simp [process_node, hl, hr]
    · rw [hr_id, hl_id]; simp [nodeCount]; omega
    · rw [hr_task, hl_task]; simp [count_tasks]; omega
    · have hn : nodeCount (PTree.parallel l r) =
          (nodeCount r + nodeCount l) + 1 := by simp [nodeCount]; omega
      simp only [ids, hcl, hcr, hn, List.range'_succ]
      rw [List.range'_append_1]
    · have hn : count_tasks (PTree.parallel l r) =
          count_tasks r + count_tasks l := by simp [count_tasks]; omega
      simp only [impactsList, icl, icr, hn, ← List.map_append, List.range'_append_1]
    · simp [countTaskNodes, count_tasks, hl_cnt, hr_cnt]
    · refine ⟨?_, ?_, hl_ord, hr_ord⟩
      · intro j hj
        rcases List.mem_append.mp hj with h | h
        · rw [hcl] at h; have := mem_range'_iff.mp h; omega
        · rw [hcr] at h; have := mem_range'_iff.mp h; omega
      · intro a ha b hb
        rw [hcl] at ha; rw [hcr] at hb
        have h1 := mem_range'_iff.mp ha; have h2 := mem_range'_iff.mp hb; omega
    · intro _; simp
  | xor l r ihl ihr =>
    intro s
    obtain ⟨cl, s2, hl, hl_id, hl_task, hl_ids, hl_imp, hl_cnt, hl_ord, _⟩ :=
      ihl ⟨s.id_counter + 1, s.task_counter, s.pyIdx + 1, s.npIdx⟩
    obtain ⟨cr, s3, hr, hr_id, hr_task, hr_ids, hr_imp, hr_cnt, hr_ord, _⟩ := ihr s2
    simp only at hl_id hl_task hl_ids hl_imp
    have hcl : ids cl = List.range' (s.id_counter + 1) (nodeCount l) := hl_ids
    have hcr : ids cr = List.range' (s.id_counter + 1 + nodeCount l) (nodeCount r) := by
      rw [hr_ids, hl_id]
    have icl : impactsList cl = (List.range' s.task_counter (count_tasks l)).map
        (fun j => mkImpacts (vecs.getD j [])) := hl_imp
    have icr : impactsList cr = (List.range' (s.task_counter + count_tasks l)
        (count_tasks r)).map (fun j => mkImpacts (vecs.getD j [])) := by
      rw [hr_imp, hl_task]
    by_cases hch : rs.pyFloat s.pyIdx < cd
    · refine ⟨CPI.xorNode "choice" s.id_counter cl cr none, s3, ?_, ?_, ?_, ?_, ?_, ?_, ?_, ?_⟩
      · simp [process_node, random_random, hl, hr, hch]
      · rw [hr_id, hl_id]; simp [nodeCount]; omega
      · rw [hr_task, hl_task]; simp [count_tasks]; omega
      · have hn : nodeCount (PTree.xor l r) =
            (nodeCount r + nodeCount l) + 1 := by simp [nodeCount]; omega
        simp only [ids, hcl, hcr, hn, List.range'_succ]
        rw [List.range'_append_1]
      · have hn : count_tasks (PTree.xor l r) =
            count_tasks r + count_tasks l := by simp [count_tasks]; omega
        simp only [impactsList, icl, icr, hn, ← List.map_append, List.range'_append_1]
      · simp [countTaskNodes, count_tasks, hl_cnt, hr_cnt]
      · refine ⟨?_, ?_, hl_ord, hr_ord⟩
        · intro j hj
          rcases List.mem_append.mp hj with h | h
          · rw [hcl] at h; have := mem_range'_iff.mp h; omega
          · rw [hcr] at h; have := mem_range'_iff.mp h; omega
        · intro a ha b hb
          rw [hcl] at ha; rw [hcr] at hb
          have h1 := mem_range'_iff.mp ha; have h2 := mem_range'_iff.mp hb; omega
      · intro _; simp
    · refine ⟨CPI.xorNode "nature" s.id_counter cl cr (some (rs.pyFloat s3.pyIdx)),
        ⟨s3.id_counter, s3.task_counter, s3.pyIdx + 1, s3.npIdx⟩, ?_, ?_, ?_, ?_, ?_, ?_, ?_, ?_⟩
      · simp [process_node, random_random, hl, hr, hch]
      · rw [hr_id, hl_id]; simp [nodeCount]; omega
      · rw [hr_task, hl_task]; simp [count_tasks]; omega
      · have hn : nodeCount (PTree.xor l r) =
            (nodeCount r + nodeCount l) + 1 := by simp [nodeCount]; omega
        simp only [ids, hcl, hcr, hn, List.range'_succ]
        rw [List.range'_append_1]
      · have hn : count_tasks (PTree.xor l r) =
            count_tasks r + count_tasks l := by simp [count_tasks]; omega
        simp only [impactsList, icl, icr, hn, ← List.map_append, List.range'_append_1]
      · simp [countTaskNodes, count_tasks, hl_cnt, hr_cnt]
      · refine ⟨?_, ?_, hl_ord, hr_ord⟩
        · intro j hj
          rcases List.mem_append.mp hj with h | h
          · rw [hcl] at h; have := mem_range'_iff.mp h; omega
          · rw [hcr] at h; have := mem_range'_iff.mp h; omega
        · intro a ha b hb
          rw [hcl] at ha; rw [hcr] at hb
          have h1 := mem_range'_iff.mp ha; have h2 := mem_range'_iff.mp hb; omega
      · intro _; simp

/-- The index draws succeed whenever the range `[0, dim-1]` is non-empty, and
they touch neither traversal counter. -/
theorem draw_indexes_ok (rs : RandTapes) (dim : Int) (h : ¬ dim - 1 < 0) :
    ∀ (n : Nat) (s : GState), ∃ out s', draw_indexes rs dim n s = .ok (out, s') ∧
      s'.id_counter = s.id_counter ∧ s'.task_counter = s.task_counter := by
  intro n
  induction n with
  | zero => intro s; exact ⟨[], s, rfl, rfl, rfl⟩
  | succ m ih =>
    intro s
    obtain ⟨out, s', h1, h2, h3⟩ := ih ⟨s.id_counter, s.task_counter, s.pyIdx + 1, s.npIdx⟩
    refine ⟨(0 + (rs.pyInt s.pyIdx).emod (dim - 1 - 0 + 1)).toNat :: out, s', ?_, h2, h3⟩
    simp [draw_indexes, random_randint, h, h1]

/-- The divide-position draws succeed whenever the non-zero position list is
non-empty, and they touch neither traversal counter. -/
theorem draw_choices_ok (rs : RandTapes) (nz : List Nat) (h : ¬ nz.length = 0) :
    ∀ (n : Nat) (s : GState), ∃ out s', draw_choices rs nz n s = .ok (out, s') ∧
      s'.id_counter = s.id_counter ∧ s'.task_counter = s.task_counter := by
  intro n
  induction n with
  | zero => intro s; exact ⟨[], s, rfl, rfl, rfl⟩
  | succ m ih =>
    intro s
    obtain ⟨out, s', h1, h2, h3⟩ := ih ⟨s.id_counter, s.task_counter, s.pyIdx + 1, s.npIdx⟩
    refine ⟨nz.getD ((rs.pyInt s.pyIdx).toNat % nz.length) 0 :: out, s', ?_, h2, h3⟩
    simp [draw_choices, random_choice, h, h1]

/-- Every perturbation mode succeeds on a non-negative dimension (for `dim = 0`
no index is drawn at all, so `random.randint` is never reached). -/
theorem applyMode_ok (rs : RandTapes) (mode : String) (dim : Int) (hdim : 0 ≤ dim) :
    ∀ (vector : List ℚ) (s : GState), ∃ out s',
      applyMode rs mode dim vector s = .ok (out, s') ∧
      s'.id_counter = s.id_counter ∧ s'.task_counter = s.task_counter := by
  intro vector s
  have hidx : ∃ idx s1, draw_indexes rs dim dim.toNat s = .ok (idx, s1) ∧
      s1.id_counter = s.id_counter ∧ s1.task_counter = s.task_counter := by
    rcases Nat.eq_zero_or_pos dim.toNat with h0 | hpos
    · rw [h0]; exact ⟨[], s, rfl, rfl, rfl⟩
    · exact draw_indexes_ok rs dim (by omega) dim.toNat s
  obtain ⟨idx, s1, hix, hid1, htask1⟩ := hidx
  simp only [applyMode, hix]
  split_ifs with h1 h2 h3 h4 h5 h6
  · exact ⟨_, s1, rfl, hid1, htask1⟩
  · exact ⟨_, s1, rfl, hid1, htask1⟩
  · exact ⟨_, s1, rfl, hid1, htask1⟩
  · exact ⟨_, s1, rfl, hid1, htask1⟩
  · obtain ⟨cho, s2, hcho, hid2, htask2⟩ :=
      draw_choices_ok rs
        (np_nonzero (idx.foldl (fun nv i => nv.set i 0) vector)) (by omega)
        dim.toNat s1
    simp only [hcho]
    exact ⟨_, s2, rfl, by rw [hid2, hid1], by rw [htask2, htask1]⟩
  · exact ⟨_, s1, rfl, hid1, htask1⟩
  · exact ⟨_, s1, rfl, hid1, htask1⟩

/-- The generation loop succeeds on a non-negative dimension, produces exactly
one vector per iteration, and touches neither traversal counter. -/
theorem generate_vectors_loop_ok (rs : RandTapes) (dim : Int) (mode : String)
    (hdim : 0 ≤ dim) : ∀ (n : Nat) (s : GState), ∃ vecs s',
      generate_vectors_loop rs dim mode n s = .ok (vecs, s') ∧
      vecs.length = n ∧
      s'.id_counter = s.id_counter ∧ s'.task_counter = s.task_counter := by
  intro n
  induction n with
  | zero => intro s; exact ⟨[], s, rfl, rfl, rfl, rfl⟩
  | succ m ih =>
    intro s
    have hnlt : ¬ dim < 0 := not_lt.mpr hdim
    have hnp : np_random_random rs dim s =
        .ok ((List.range dim.toNat).map (fun i => rs.npFloat (s.npIdx + i)),
             ⟨s.id_counter, s.task_counter, s.pyIdx, s.npIdx + dim.toNat⟩) := by
      simp [np_random_random, hnlt]
    by_cases hm : mode = "random"
    · obtain ⟨vecs, s', h1, h2, h3, h4⟩ :=
        ih ⟨s.id_counter, s.task_counter, s.pyIdx, s.npIdx + dim.toNat⟩
      refine ⟨(List.range dim.toNat).map (fun i => rs.npFloat (s.npIdx + i)) :: vecs,
        s', ?_, by simp [h2], h3, h4⟩
      rw [hm] at h1
      simp [generate_vectors_loop, hnp, hm, h1]
    · obtain ⟨out, s2, hap, hid2, htask2⟩ := applyMode_ok rs mode dim hdim
        ((List.range dim.toNat).map (fun i => rs.npFloat (s.npIdx + i)))
        ⟨s.id_counter, s.task_counter, s.pyIdx, s.npIdx + dim.toNat⟩
      obtain ⟨vecs, s', h1, h2, h3, h4⟩ := ih s2
      refine ⟨out :: vecs, s', ?_, by simp [h2], by rw [h3, hid2], by rw [h4, htask2]⟩
      simp [generate_vectors_loop, hnp, hm, hap, h1]

/-- Success: `generate_vectors` on a non-negative dimension returns exactly
`num_vec.toNat` vectors (`range(num_vec)` is empty for a non-positive count)
and leaving the traversal counters unchanged. -/
theorem generate_vectors_ok (rs : RandTapes) (num_vec dim : Int) (mode : String)
    (hdim : 0 ≤ dim) (s : GState) : ∃ vecs s',
      generate_vectors rs num_vec dim mode s = .ok (vecs, s') ∧
      vecs.length = num_vec.toNat ∧
      s'.id_counter = s.id_counter ∧ s'.task_counter = s.task_counter :=
  generate_vectors_loop_ok rs dim mode hdim num_vec.toNat s

/-- With a positive count and a negative dimension, the very first
`np.random.random(dim)` call raises. -/
theorem generate_vectors_err (rs : RandTapes) (num_vec dim : Int) (mode : String)
    (hnv : 0 < num_vec) (hdim : dim < 0) (s : GState) :
    generate_vectors rs num_vec dim mode s =
      .error "ValueError: negative dimensions are not allowed" := by
  unfold generate_vectors
  have hk : num_vec.toNat = (num_vec.toNat - 1) + 1 := by omega
  rw [hk]
  simp [generate_vectors_loop, np_random_random, hdim]

theorem map_getD_range_eq (l : List (List ℚ)) :
    (List.range l.length).map (fun j => mkImpacts (l.getD j [])) = l.map mkImpacts := by
  induction l with
  | nil => simp
  | cons x xs ih =>
    rw [List.length_cons, List.range_succ_eq_map, List.map_cons, List.map_map]
    have hfun : ((fun j => mkImpacts ((x :: xs).getD j [])) ∘ Nat.succ)
        = fun j => mkImpacts (xs.getD j []) := by
      funext j; simp
    rw [hfun, ih]
    simp

/-- C1: for every expression AST with `n` task leaves, `translate_to_cpi`
requests exactly one vector batch with `count = n` (`count_tasks tree`) from
`generate_vectors` before the traversal; the traversal hands the `i`-th task
leaf in pre-order exactly the `i`-th vector of that batch as its impacts
mapping (the pre-order impacts listing of the result is the batch itself,
mapped through the dict comprehension), and the produced instance has exactly
`n` task nodes. -/
theorem c1_impacts_follow_preorder (rs : RandTapes) (tree : PTree) (cd : ℚ)
    (di : Int × Int) (ni : Int) (mode : String)
    (hdi : di.1 ≤ di.2) (hni : 0 ≤ ni) :
    ∃ vecs s1 c s2,
      generate_vectors rs (count_tasks tree : Int) ni mode initState = .ok (vecs, s1) ∧
      vecs.length = count_tasks tree ∧
      translate_to_cpi_tree rs tree cd di ni mode = .ok (c, s2) ∧
      countTaskNodes c = count_tasks tree ∧
      impactsList c = vecs.map mkImpacts := by
  obtain ⟨vecs, s1, hg, hlen, hid1, htask1⟩ :=
    generate_vectors_ok rs (count_tasks tree : Int) ni mode hni initState
  obtain ⟨c, s2, hp, _, _, _, himp, hcnt, _, _⟩ :=
    process_node_spec rs cd di vecs hdi tree s1
  have hv : vecs.length = count_tasks tree := by simpa using hlen
  refine ⟨vecs, s1, c, s2, hg, hv, ?_, hcnt, ?_⟩
  · simp only [translate_to_cpi_tree, hg, hp]
  · rw [himp, htask1]
    have h0 : initState.task_counter = 0 := rfl
    rw [h0, ← List.range_eq_range', ← hv]
    exact map_getD_range_eq vecs

/-- C1 witness: the theorem applied to the concrete AST `a ^ b` with a valid
duration interval and one impact dimension. -/
theorem c1_witness :
    ((1 : Int), (1 : Int)).1 ≤ ((1 : Int), (1 : Int)).2 ∧ (0 : Int) ≤ 1 ∧
    (∃ vecs s1 c s2,
      generate_vectors rs0 (count_tasks tree0 : Int) 1 "random" initState = .ok (vecs, s1) ∧
      vecs.length = count_tasks tree0 ∧
      translate_to_cpi_tree rs0 tree0 (1/2) (1, 1) 1 "random" = .ok (c, s2) ∧
      countTaskNodes c = count_tasks tree0 ∧
      impactsList c = vecs.map mkImpacts) :=
  ⟨by decide, by decide,
   c1_impacts_follow_preorder rs0 tree0 (1/2) (1, 1) 1 "random" (by decide) (by decide)⟩

/-- C2: for every well-formed AST (no empty regions) the instance produced by
the builder carries, in pre-order, exactly the ids `0, 1, ..., node_count - 1`
where `node_count` counts every AST node (leaves plus internal); in
particular the ids are a contiguous duplicate-free range assigned by the
single pre-order traversal: each node's id is strictly below every id in its
subtrees and all ids of the left subtree are below all ids of the right
subtree. -/
theorem c2_ids_contiguous_preorder (rs : RandTapes) (tree : PTree) (cd : ℚ)
    (di : Int × Int) (ni : Int) (mode : String)
    (hwf : wf tree = true) (hdi : di.1 ≤ di.2) (hni : 0 ≤ ni) :
    ∃ c s2,
      translate_to_cpi_tree rs tree cd di ni mode = .ok (c, s2) ∧
      c ≠ CPI.null ∧
      ids c = List.range (nodeCount tree) ∧
      (ids c).Nodup ∧
      idOrdered c := by
  obtain ⟨vecs, s1, hg, hlen, hid1, htask1⟩ :=
    generate_vectors_ok rs (count_tasks tree : Int) ni mode hni initState
  obtain ⟨c, s2, hp, _, _, hids, _, _, hord, hnn⟩ :=
    process_node_spec rs cd di vecs hdi tree s1
  have hr : ids c = List.range (nodeCount tree) := by
    rw [hids, hid1]
    have h0 : initState.id_counter = 0 := rfl
    rw [h0, ← List.range_eq_range']
  refine ⟨c, s2, ?_, hnn hwf, hr, ?_, hord⟩
  · simp only [translate_to_cpi_tree, hg, hp]
  · rw [hr]; exact List.nodup_range (nodeCount tree)

/-- C2 witness: the theorem applied to the concrete well-formed AST `a ^ b`. -/
theorem c2_witness :
    wf tree0 = true ∧ ((1 : Int), (1 : Int)).1 ≤ ((1 : Int), (1 : Int)).2 ∧
    (0 : Int) ≤ 1 ∧
    (∃ c s2,
      translate_to_cpi_tree rs0 tree0 (1/2) (1, 1) 1 "random" = .ok (c, s2) ∧
      c ≠ CPI.null ∧
      ids c = List.range (nodeCount tree0) ∧
      (ids c).Nodup ∧
      idOrdered c) :=
  ⟨by decide, by decide, by decide,
   c2_ids_contiguous_preorder rs0 tree0 (1/2) (1, 1) 1 "random" (by decide) (by decide)
     (by decide)⟩

/-- C3: `a,b^c` parses as `Xor(Sequential(Task a, Task b), Task c)`; the
precedence chain is `^` weakest, then `||`, then `,`, and each binary
operator folds left-to-right. -/
theorem c3_parse_precedence :
    parse "a,b^c" = .ok (.xor (.sequential (.task "a") (.task "b")) (.task "c")) ∧
    parse "a^b^c" = .ok (.xor (.xor (.task "a") (.task "b")) (.task "c")) ∧
    parse "a,b,c" = .ok (.sequential (.sequential (.task "a") (.task "b")) (.task "c")) ∧
    parse "a||b||c" = .ok (.parallel (.parallel (.task "a") (.task "b")) (.task "c")) ∧
    parse "a||b,c^d" =
      .ok (.xor (.parallel (.task "a") (.sequential (.task "b") (.task "c"))) (.task "d")) := by
  refine ⟨?_, ?_, ?_, ?_, ?_⟩ <;> rfl

/-- C5 counterexample: contrary to the claim, `parse "a^^b"` does not fail —
the grammar's `region` rule has an empty first alternative, so the middle
operand of `a^^b` is an empty region and the parse succeeds. -/
theorem c5_counterexample :
    parse "a^^b" = .ok (.xor (.xor (.task "a") .emptyRegion) (.task "b")) := rfl

/-- C5 amended: `parse` fails on an unexpected token, an unbalanced
parenthesis, or an unknown character class — in particular `parse "(a,b"`
fails — but `parse "a^^b"` succeeds (empty region between the carets), and so
does the empty input, because the grammar's `region` rule permits an empty
alternative. -/
theorem c5_amended :
    parse "(a,b" = .error "UnexpectedToken" ∧
    parse "a$b" = .error "UnexpectedCharacters" ∧
    parse "a b" = .error "UnexpectedToken" ∧
    parse "a)" = .error "UnexpectedToken" ∧
    parse "" = .ok .emptyRegion ∧
    parse "a^^b" = .ok (.xor (.xor (.task "a") .emptyRegion) (.task "b")) := by
  refine ⟨?_, ?_, ?_, ?_, ?_, ?_⟩ <;> rfl

/-- C6: `max_independent_xor` is total and satisfies the claimed equations —
a task leaf gives 0, `Sequential`/`Parallel` sum their children, `Xor` gives
`max(1, max(left, right))`; hence `Sequential(Xor(a,b), Xor(c,d))` gives 2
and `Xor(Xor(a,b), c)` gives 1. -/
theorem c6_max_independent_xor :
    (∀ nm, max_independent_xor_node (.task nm) = 0) ∧
    (∀ l r, max_independent_xor_node (.sequential l r) =
      max_independent_xor_node l + max_independent_xor_node r) ∧
    (∀ l r, max_independent_xor_node (.parallel l r) =
      max_independent_xor_node l + max_independent_xor_node r) ∧
    (∀ l r, max_independent_xor_node (.xor l r) =
      max 1 (max (max_independent_xor_node l) (max_independent_xor_node r))) ∧
    max_independent_xor_node (.sequential (.xor (.task "a") (.task "b"))
      (.xor (.task "c") (.task "d"))) = 2 ∧
    max_independent_xor_node (.xor (.xor (.task "a") (.task "b")) (.task "c")) = 1 ∧
    max_independent_xor "(a^b),(c^d)" = .ok 2 :=
  ⟨fun _ => rfl, fun _ _ => rfl, fun _ _ => rfl, fun _ _ => rfl, rfl, rfl, rfl⟩

/-- C7: `max_nested_xor` is total and satisfies the claimed equations — a
task leaf gives 0, `Sequential`/`Parallel` take the maximum of their children
without incrementing, `Xor` gives `1 + max(left, right)`; hence
`Xor(Xor(a,b), c)` gives 2 and `Sequential(Xor(a,b), Xor(c,d))` gives 1. -/
theorem c7_max_nested_xor :
    (∀ nm, max_nested_xor_node (.task nm) = 0) ∧
    (∀ l r, max_nested_xor_node (.sequential l r) =
      max (max_nested_xor_node l) (max_nested_xor_node r)) ∧
    (∀ l r, max_nested_xor_node (.parallel l r) =
      max (max_nested_xor_node l) (max_nested_xor_node r)) ∧
    (∀ l r, max_nested_xor_node (.xor l r) =
      1 + max (max_nested_xor_node l) (max_nested_xor_node r)) ∧
    max_nested_xor_node (.xor (.xor (.task "a") (.task "b")) (.task "c")) = 2 ∧
    max_nested_xor_node (.sequential (.xor (.task "a") (.task "b"))
      (.xor (.task "c") (.task "d"))) = 1 ∧
    max_nested_xor "a^b^c" = .ok 2 := by
  refine ⟨fun _ => rfl, fun _ _ => rfl, fun _ _ => rfl, fun l r => ?_, rfl, rfl, rfl⟩
  simp [max_nested_xor_node, Nat.add_comm]

/-- C4 amended: `generate_vectors` performs no parameter validation at all —
for every mode it succeeds exactly when the count is non-positive (empty
loop) or the dimension is non-negative; the only failure is numpy's
`ValueError` when at least one vector is requested with a negative dimension.
In particular a negative count returns the empty list and dimension 0
succeeds (returning empty vectors), for every mode. -/
theorem c4_amended (rs : RandTapes) (num_vec dim : Int) (mode : String) (s : GState) :
    (∃ out, generate_vectors rs num_vec dim mode s = .ok out) ↔
      (num_vec ≤ 0 ∨ 0 ≤ dim) := by
  constructor
  · rintro ⟨out, hout⟩
    by_contra hcon
    push_neg at hcon
    obtain ⟨h1, h2⟩ := hcon
    rw [generate_vectors_err rs num_vec dim mode h1 (by omega) s] at hout
    simp at hout
  · intro h
    rcases h with h | h
    · have hz : num_vec.toNat = 0 := by omega
      exact ⟨([], s), by unfold generate_vectors; rw [hz]; rfl⟩
    · obtain ⟨vecs, s', hok, _, _, _⟩ := generate_vectors_ok rs num_vec dim mode h s
      exact ⟨(vecs, s'), hok⟩

/-- C10: `generate(0, dimension, mode)` succeeds with the empty vector batch,
for every dimension (in particular every `dimension ≥ 1`) and every mode,
leaving the state untouched. -/
theorem c10_zero_count (rs : RandTapes) (dim : Int) (mode : String) (s : GState)
    (_hdim : 1 ≤ dim) :
    generate_vectors rs 0 dim mode s = .ok ([], s) := rfl

/-- C10 witness: the theorem applied at dimension 3 in `random` mode. -/
theorem c10_witness :
    (1 : Int) ≤ 3 ∧ generate_vectors rs0 0 3 "random" initState = .ok ([], initState) :=
  ⟨by decide, c10_zero_count rs0 3 "random" initState (by decide)⟩

/-- C4 counterexample: contrary to the claim, `generate_vectors` does not
fail on `dimension = 0` (for any count) or on a negative count — it returns
empty vectors, respectively the empty batch — and `translate_to_cpi` with
`num_impacts = 0` likewise succeeds, producing a task with an empty impacts
mapping. -/
theorem c4_counterexample :
    generate_vectors rs0 2 0 "random" initState = .ok ([[], []], initState) ∧
    generate_vectors rs0 (-1) 3 "random" initState = .ok ([], initState) ∧
    translate_to_cpi_tree rs0 (.task "a") (1/2) (1, 1) 0 "random" =
      .ok (.task 0 1 [], ⟨1, 1, 1, 0⟩) := by
  refine ⟨?_, ?_, ?_⟩ <;> rfl

/-- With every Bernoulli draw strictly below `choice_distribution`, the
builder resolves every branch point to `choice` and never emits a `nature`
dictionary. -/
theorem process_node_no_nature (rs : RandTapes) (cd : ℚ) (di : Int × Int)
    (vecs : List (List ℚ)) (hb : ∀ k, rs.pyFloat k < cd) :
    ∀ (t : PTree) (s : GState) (c : CPI) (s' : GState),
      process_node rs cd di vecs t s = .ok (c, s') →
      countXorKind "nature" c = 0 := by
  intro t
  induction t with
  | task nm =>
    intro s c s' h
    simp only [process_node] at h
    split at h
    · simp at h
    · simp only [Except.ok.injEq, Prod.mk.injEq] at h
      obtain ⟨h1, h2⟩ := h
      subst h1
      simp [countXorKind]
  | emptyRegion =>
    intro s c s' h
    simp only [process_node, Except.ok.injEq, Prod.mk.injEq] at h
    obtain ⟨h1, h2⟩ := h
    subst h1
    simp [countXorKind]
  | sequential l r ihl ihr =>
    intro s c s' h
    simp only [process_node] at h
    split at h
    · simp at h
    · rename_i cl s2 hl
      split at h
      · simp at h
      · rename_i cr s3 hr
        simp only [Except.ok.injEq, Prod.mk.injEq] at h
        obtain ⟨h1, h2⟩ := h
        subst h1
        simp only [countXorKind]
        rw [ihl _ _ _ hl, ihr _ _ _ hr]
  | parallel l r ihl ihr =>
    intro s c s' h
    simp only [process_node] at h
    split at h
    · simp at h
    · rename_i cl s2 hl
      split at h
      · simp at h
      · rename_i cr s3 hr
        simp only [Except.ok.injEq, Prod.mk.injEq] at h
        obtain ⟨h1, h2⟩ := h
        subst h1
        simp only [countXorKind]
        rw [ihl _ _ _ hl, ihr _ _ _ hr]
  | xor l r ihl ihr =>
    intro s c s' h
    have hc := hb s.pyIdx
    simp only [process_node, random_random, hc, if_true] at h
    split at h
    · simp at h
    · rename_i cl s2 hl
      split at h
      · simp at h
      · rename_i cr s3 hr
        simp only [Except.ok.injEq, Prod.mk.injEq] at h
        obtain ⟨h1, h2⟩ := h
        subst h1
        simp only [countXorKind, ihl _ _ _ hl, ihr _ _ _ hr]
        decide

/-- With every Bernoulli draw at or above `choice_distribution`, the builder
resolves every branch point to `nature` and never emits a `choice`
dictionary. -/
theorem process_node_no_choice (rs : RandTapes) (cd : ℚ) (di : Int × Int)
    (vecs : List (List ℚ)) (hb : ∀ k, ¬ rs.pyFloat k < cd) :
    ∀ (t : PTree) (s : GState) (c : CPI) (s' : GState),
      process_node rs cd di vecs t s = .ok (c, s') →
      countXorKind "choice" c = 0 := by
  intro t
  induction t with
  | task nm =>
    intro s c s' h
    simp only [process_node] at h
    split at h
    · simp at h
    · simp only [Except.ok.injEq, Prod.mk.injEq] at h
      obtain ⟨h1, h2⟩ := h
      subst h1
      simp [countXorKind]
  | emptyRegion =>
    intro s c s' h
    simp only [process_node, Except.ok.injEq, Prod.mk.injEq] at h
    obtain ⟨h1, h2⟩ := h
    subst h1
    simp [countXorKind]
  | sequential l r ihl ihr =>
    intro s c s' h
    simp only [process_node] at h
    split at h
    · simp at h
    · rename_i cl s2 hl
      split at h
      · simp at h
      · rename_i cr s3 hr
        simp only [Except.ok.injEq, Prod.mk.injEq] at h
        obtain ⟨h1, h2⟩ := h
        subst h1
        simp only [countXorKind]
        rw [ihl _ _ _ hl, ihr _ _ _ hr]
  | parallel l r ihl ihr =>
    intro s c s' h
    simp only [process_node] at h
    split at h
    · simp at h
    · rename_i cl s2 hl
      split at h
      · simp at h
      · rename_i cr s3 hr
        simp only [Except.ok.injEq, Prod.mk.injEq] at h
        obtain ⟨h1, h2⟩ := h
        subst h1
        simp only [countXorKind]
        rw [ihl _ _ _ hl, ihr _ _ _ hr]
  | xor l r ihl ihr =>
    intro s c s' h
    have hc := hb s.pyIdx
    simp only [process_node, random_random, hc, if_false] at h
    split at h
    · simp at h
    · rename_i cl s2 hl
      split at h
      · simp at h
      · rename_i cr s3 hr
        simp only [Except.ok.injEq, Prod.mk.injEq] at h
        obtain ⟨h1, h2⟩ := h
        subst h1
        simp only [countXorKind, ihl _ _ _ hl, ihr _ _ _ hr]
        decide

/-- C8: with `choice_probability = 1.0` the built instance contains no
`nature` node, and with `choice_probability = 0.0` it contains no `choice`
node, given that each Bernoulli trial draws a value uniformly in `[0,1)` and
compares it strictly below `choice_probability`. -/
theorem c8_choice_probability_extremes (rs : RandTapes) (tree : PTree)
    (di : Int × Int) (ni : Int) (mode : String)
    (hb : ∀ k, 0 ≤ rs.pyFloat k ∧ rs.pyFloat k < 1) :
    (∀ c s, translate_to_cpi_tree rs tree 1 di ni mode = .ok (c, s) →
      countXorKind "nature" c = 0) ∧
    (∀ c s, translate_to_cpi_tree rs tree 0 di ni mode = .ok (c, s) →
      countXorKind "choice" c = 0) := by
  constructor
  · intro c s h
    simp only [translate_to_cpi_tree] at h
    split at h
    · simp at h
    · rename_i vecs s1 hg
      exact process_node_no_nature rs 1 di vecs (fun k => (hb k).2) tree s1 c s h
  · intro c s h
    simp only [translate_to_cpi_tree] at h
    split at h
    · simp at h
    · rename_i vecs s1 hg
      exact process_node_no_choice rs 0 di vecs (fun k => not_lt.mpr (hb k).1)
        tree s1 c s h

/-- C8 witness: the theorem applied to the concrete AST `a ^ b` with the
all-zero random source; with `choice_probability = 1` the build yields a
`choice` root, with `0` a `nature` root, neither counting the other kind. -/
theorem c8_witness :
    countXorKind "nature" (CPI.xorNode "choice" 0 (CPI.task 1 1 [("impact_1", 0)])
      (CPI.task 2 1 [("impact_1", 0)]) none) = 0 ∧
    countXorKind "choice" (CPI.xorNode "nature" 0 (CPI.task 1 1 [("impact_1", 0)])
      (CPI.task 2 1 [("impact_1", 0)]) (some 0)) = 0 :=
  ⟨(c8_choice_probability_extremes rs0 tree0 (1, 1) 1 "random"
      (fun _ => ⟨by norm_num [ rs0], by norm_num [ rs0]⟩)).1 _ ⟨3, 2, 3, 2⟩ (by rfl),
   (c8_choice_probability_extremes rs0 tree0 (1, 1) 1 "random"
      (fun _ => ⟨by norm_num [ rs0], by norm_num [ rs0]⟩)).2 _ ⟨3, 2, 4, 2⟩ (by rfl)⟩

/-- In every dictionary built by `process_node` (given draws in `[0,1)`), the
`probability` entry is present exactly on `nature` dictionaries, and its
value lies in `[0,1)`. -/
theorem process_node_prob_fields (rs : RandTapes) (cd : ℚ) (di : Int × Int)
    (vecs : List (List ℚ)) (hb : ∀ k, 0 ≤ rs.pyFloat k ∧ rs.pyFloat k < 1) :
    ∀ (t : PTree) (s : GState) (c : CPI) (s' : GState),
      process_node rs cd di vecs t s = .ok (c, s') →
      ∀ x ∈ nodesList c,
        (hasProbabilityField x = true ↔ kindOf x = "nature") ∧
        (∀ q, probOf x = some q → 0 ≤ q ∧ q < 1) := by
  intro t
  induction t with
  | task nm =>
    intro s c s' h x hx
    simp only [process_node] at h
    split at h
    · simp at h
    · simp only [Except.ok.injEq, Prod.mk.injEq] at h
      obtain ⟨h1, h2⟩ := h
      subst h1
      simp only [nodesList, List.mem_singleton] at hx
      subst hx
      refine ⟨by simp [hasProbabilityField, kindOf], ?_⟩
      intro q hq
      simp [probOf] at hq
  | emptyRegion =>
    intro s c s' h x hx
    simp only [process_node, Except.ok.injEq, Prod.mk.injEq] at h
    obtain ⟨h1, h2⟩ := h
    subst h1
    simp [nodesList] at hx
  | sequential l r ihl ihr =>
    intro s c s' h x hx
    simp only [process_node] at h
    split at h
    · simp at h
    · rename_i cl s2 hl
      split at h
      · simp at h
      · rename_i cr s3 hr
        simp only [Except.ok.injEq, Prod.mk.injEq] at h
        obtain ⟨h1, h2⟩ := h
        subst h1
        simp only [nodesList, List.mem_cons, List.mem_append] at hx
        rcases hx with rfl | hx' | hx'
        · refine ⟨by simp [hasProbabilityField, kindOf], ?_⟩
          intro q hq
          simp [probOf] at hq
        · exact ihl _ _ _ hl x hx'
        · exact ihr _ _ _ hr x hx'
  | parallel l r ihl ihr =>
    intro s c s' h x hx
    simp only [process_node] at h
    split at h
    · simp at h
    · rename_i cl s2 hl
      split at h
      · simp at h
      · rename_i cr s3 hr
        simp only [Except.ok.injEq, Prod.mk.injEq] at h
        obtain ⟨h1, h2⟩ := h
        subst h1
        simp only [nodesList, List.mem_cons, List.mem_append] at hx
        rcases hx with rfl | hx' | hx'
        · refine ⟨by simp [hasProbabilityField, kindOf], ?_⟩
          intro q hq
          simp [probOf] at hq
        · exact ihl _ _ _ hl x hx'
        · exact ihr _ _ _ hr x hx'
  | xor l r ihl ihr =>
    intro s c s' h x hx
    simp only [process_node, random_random] at h
    by_cases hch : rs.pyFloat s.pyIdx < cd
    · simp only [hch, if_true] at h
      split at h
      · simp at h
      · rename_i cl s2 hl
        split at h
        · simp at h
        · rename_i cr s3 hr
          simp only [Except.ok.injEq, Prod.mk.injEq] at h
          obtain ⟨h1, h2⟩ := h
          subst h1
          simp only [nodesList, List.mem_cons, List.mem_append] at hx
          rcases hx with rfl | hx' | hx'
          · refine ⟨by simp [hasProbabilityField, kindOf], ?_⟩
            intro q hq
            simp [probOf] at hq
          · exact ihl _ _ _ hl x hx'
          · exact ihr _ _ _ hr x hx'
    · simp only [hch, if_false] at h
      split at h
      · simp at h
      · rename_i cl s2 hl
        split at h
        · simp at h
        · rename_i cr s3 hr
          simp only [Except.ok.injEq, Prod.mk.injEq] at h
          obtain ⟨h1, h2⟩ := h
          subst h1
          simp only [nodesList, List.mem_cons, List.mem_append] at hx
          rcases hx with rfl | hx' | hx'
          · refine ⟨by simp [hasProbabilityField, kindOf], ?_⟩
            intro q hq
            simp only [probOf, Option.some.injEq] at hq
            subst hq
            exact hb s3.pyIdx
          · exact ihl _ _ _ hl x hx'
          · exact ihr _ _ _ hr x hx'

/-- C9: in every instance built by `translate_to_cpi` (with uniform draws in
`[0,1)`), a node carries a `probability` entry exactly when its kind is
`nature`; every `nature` node's probability lies in `[0,1)`, and no `task`,
`sequence`, `parallel` or `choice` node carries one. -/
theorem c9_probability_iff_nature (rs : RandTapes) (tree : PTree) (cd : ℚ)
    (di : Int × Int) (ni : Int) (mode : String)
    (hb : ∀ k, 0 ≤ rs.pyFloat k ∧ rs.pyFloat k < 1) :
    ∀ c s, translate_to_cpi_tree rs tree cd di ni mode = .ok (c, s) →
      ∀ x ∈ nodesList c,
        (hasProbabilityField x = true ↔ kindOf x = "nature") ∧
        (∀ q, probOf x = some q → 0 ≤ q ∧ q < 1) := by
  intro c s h
  simp only [translate_to_cpi_tree] at h
  split at h
  · simp at h
  · rename_i vecs s1 hg
    exact process_node_prob_fields rs cd di vecs hb tree s1 c s h

/-- C9 witness: the theorem applied to the concrete build of `a ^ b` with
`choice_probability = 0` — the root is a `nature` node whose probability 0
lies in `[0,1)`. -/
theorem c9_witness :
    kindOf (CPI.xorNode "nature" 0 (CPI.task 1 1 [("impact_1", 0)])
      (CPI.task 2 1 [("impact_1", 0)]) (some 0)) = "nature" ∧
    ((0 : ℚ) ≤ 0 ∧ (0 : ℚ) < 1) := by
  have h := c9_probability_iff_nature rs0 tree0 0 (1, 1) 1 "random"
    (fun _ => ⟨by norm_num [ rs0], by norm_num [ rs0]⟩)
    (CPI.xorNode "nature" 0 (CPI.task 1 1 [("impact_1", 0)])
      (CPI.task 2 1 [("impact_1", 0)]) (some 0)) ⟨3, 2, 4, 2⟩ (by rfl)
    (CPI.xorNode "nature" 0 (CPI.task 1 1 [("impact_1", 0)])
      (CPI.task 2 1 [("impact_1", 0)]) (some 0)) (by simp [nodesList])
  exact ⟨h.1.mp (by rfl), h.2 0 rfl⟩

end SynthCpi

